import Mathlib

/-!
Verification of the `raytracer` repository (Rust) against its natural-language
specification.  The Rust source is shallowly embedded: `f64` values become real
numbers (`ℝ`, exact arithmetic), `f64::sqrt` becomes `Real.sqrt`, `f64::tan`
becomes `Real.tan`, `f64::powf` becomes `Real.rpow`; fallible constructors
(Rust `panic!`) return `Option`; the fixed `[[f64; 4]; 4]` backing grid of
`Matrix` becomes `Fin 4 → Fin 4 → ℝ`.  Definitions are translated from
`src/utils.rs`, `src/vector.rs`, `src/point.rs`, `src/color.rs`,
`src/matrix.rs`, `src/transformations.rs`, `src/material.rs`, `src/light.rs`,
`src/sphere.rs`, `src/plane.rs`, `src/ray.rs`, `src/intersection.rs`,
`src/world.rs` and `src/camera.rs`.
-/

namespace RT

/-- EPSILON from `utils.rs`: `pub(crate) const EPSILON: f64 = 0.0001;`. -/
def EPSILON : ℝ := 0.0001

/-- Tolerant scalar comparison from `utils.rs`: `(a - b).abs() < EPSILON`. -/
def equal (a b : ℝ) : Prop := |a - b| < EPSILON

/-- Vector from `vector.rs`: three `f64` components. -/
structure Vector where
  x : ℝ
  y : ℝ
  z : ℝ

/-- Point from `point.rs`: three `f64` components. -/
structure Point where
  x : ℝ
  y : ℝ
  z : ℝ

namespace Vector

/-- Vector::new. -/
def new (x y z : ℝ) : Vector := ⟨x, y, z⟩

/-- magnitude from `vector.rs`: `(x*x + y*y + z*z).sqrt()`. -/
noncomputable def magnitude (v : Vector) : ℝ :=
  Real.sqrt (v.x * v.x + v.y * v.y + v.z * v.z)

/-- normalize from `vector.rs`: divide each component by the magnitude. -/
noncomputable def normalize (v : Vector) : Vector :=
  ⟨v.x / v.magnitude, v.y / v.magnitude, v.z / v.magnitude⟩

/-- dot product from `vector.rs`. -/
def dot (v w : Vector) : ℝ := v.x * w.x + v.y * w.y + v.z * w.z

/-- cross product from `vector.rs`. -/
def cross (v w : Vector) : Vector :=
  ⟨v.y * w.z - v.z * w.y, v.z * w.x - v.x * w.z, v.x * w.y - v.y * w.x⟩

/-- componentwise addition (`impl Add for Vector`). -/
def add (v w : Vector) : Vector := ⟨v.x + w.x, v.y + w.y, v.z + w.z⟩

/-- componentwise subtraction (`impl Sub for Vector`). -/
def sub (v w : Vector) : Vector := ⟨v.x - w.x, v.y - w.y, v.z - w.z⟩

/-- scalar multiplication (`impl Mul<f64> for Vector`). -/
def smul (v : Vector) (k : ℝ) : Vector := ⟨v.x * k, v.y * k, v.z * k⟩

/-- negation (`impl Neg for Vector`). -/
def neg (v : Vector) : Vector := ⟨-v.x, -v.y, -v.z⟩

/-- reflect from `vector.rs`: `*self - *normal * 2.0 * self.dot(normal)`. -/
def reflect (v normal : Vector) : Vector :=
  v.sub ((normal.smul 2).smul (v.dot normal))

/-- epsilon equality (`impl PartialEq for Vector`). -/
def veq (v w : Vector) : Prop := equal v.x w.x ∧ equal v.y w.y ∧ equal v.z w.z

end Vector

/-- unit vector `vector::Y`. -/
def vectorY : Vector := ⟨0, 1, 0⟩

/-- unit vector `vector::Z`. -/
def vectorZ : Vector := ⟨0, 0, 1⟩

namespace Point

/-- Point::new. -/
def new (x y z : ℝ) : Point := ⟨x, y, z⟩

/-- Point::default (derived `Default`): all components zero. -/
def default : Point := ⟨0, 0, 0⟩

/-- point + vector (`impl Add<Vector> for Point`). -/
def addV (p : Point) (v : Vector) : Point := ⟨p.x + v.x, p.y + v.y, p.z + v.z⟩

/-- point − point (`impl Sub for Point`), yielding a vector. -/
def subP (p q : Point) : Vector := ⟨p.x - q.x, p.y - q.y, p.z - q.z⟩

end Point

/-- Color from `color.rs`. -/
structure Color where
  r : ℝ
  g : ℝ
  b : ℝ

namespace Color

/-- Color::new. -/
def new (r g b : ℝ) : Color := ⟨r, g, b⟩

/-- Color::black. -/
def black : Color := ⟨0, 0, 0⟩

/-- Color::default and Color::white: white (1,1,1). -/
def white : Color := ⟨1, 1, 1⟩

/-- componentwise addition (`impl Add for Color`). -/
def add (c d : Color) : Color := ⟨c.r + d.r, c.g + d.g, c.b + d.b⟩

/-- scalar multiplication (`impl Mul<f64> for Color`). -/
def smul (c : Color) (k : ℝ) : Color := ⟨c.r * k, c.g * k, c.b * k⟩

/-- componentwise (Hadamard) product (`impl Mul for Color`). -/
def mul (c d : Color) : Color := ⟨c.r * d.r, c.g * d.g, c.b * d.b⟩

end Color

/-- Matrix from `matrix.rs`: a logical `dimension` (≤ 4 for every value the
checked constructor accepts) and a fixed 4×4 backing grid, embedded as a
function on `Fin 4 × Fin 4`. -/
structure Matrix where
  dimension : ℕ
  grid : Fin 4 → Fin 4 → ℝ

/-- Helper building a 4×4 grid from a function on natural indices. -/
def mkGrid (f : ℕ → ℕ → ℝ) : Fin 4 → Fin 4 → ℝ := fun r c => f r.val c.val

namespace Matrix

/-- Matrix::get: `self.grid[row][col]`; an out-of-range access (a Rust panic)
is embedded as the junk value 0, never exercised by in-range callers. -/
def get (m : Matrix) (row col : ℕ) : ℝ :=
  if h : row < 4 ∧ col < 4 then m.grid ⟨row, h.1⟩ ⟨col, h.2⟩ else 0

/-- Matrix::new from `matrix.rs`: panics (here `none`) when `dimension > 4` or
`contents.len() != dimension * dimension`; otherwise fills the leading
dimension×dimension block row-major from `contents`, leaving zeros elsewhere. -/
def newChecked (dimension : ℕ) (contents : List ℝ) : Option Matrix :=
  if 4 < dimension ∨ contents.length ≠ dimension * dimension then none
  else some ⟨dimension, mkGrid fun r c =>
    if r < dimension ∧ c < dimension then contents.getD (r * dimension + c) 0 else 0⟩

/-- Matrix::eye: a zero grid with ones on the diagonal of the leading block. -/
def eye (dimension : ℕ) : Matrix :=
  ⟨dimension, mkGrid fun r c => if r = c ∧ r < dimension then 1 else 0⟩

/-- Matrix::transpose: swaps indices inside the leading block, zero outside. -/
def transpose (m : Matrix) : Matrix :=
  ⟨m.dimension, mkGrid fun r c =>
    if r < m.dimension ∧ c < m.dimension then m.get c r else 0⟩

/-- Matrix::submatrix: deletes row `row` and column `col`, shrinking the
dimension by one; the guard panic for `row ≥ dimension ∨ col ≥ dimension` is
not modelled (all callers use in-range indices). -/
def submatrix (m : Matrix) (row col : ℕ) : Matrix :=
  ⟨m.dimension - 1, mkGrid fun r c =>
    if r < m.dimension - 1 ∧ c < m.dimension - 1 then
      m.get (if r ≥ row then r + 1 else r) (if c ≥ col then c + 1 else c)
    else 0⟩

/-- Determinant recursion of `Matrix::determinant`, with explicit fuel equal to
the dimension (the Rust recursion descends one dimension per call): the 2×2
base case, otherwise cofactor expansion along the first column. -/
def detAux : ℕ → Matrix → ℝ
  | 0, _ => 0
  | fuel + 1, m =>
    if m.dimension = 2 then m.get 0 0 * m.get 1 1 - m.get 0 1 * m.get 1 0
    else ∑ row ∈ Finset.range m.dimension,
      m.get row 0 *
        (detAux fuel (m.submatrix row 0) * (if (row + 0) % 2 = 0 then 1 else -1))

/-- Matrix::determinant from `matrix.rs`. -/
def determinant (m : Matrix) : ℝ := detAux m.dimension m

/-- Matrix::minor: determinant of the submatrix. -/
def minor (m : Matrix) (row col : ℕ) : ℝ := (m.submatrix row col).determinant

/-- Matrix::cofactor: the minor, negated when `row + col` is odd. -/
def cofactor (m : Matrix) (row col : ℕ) : ℝ :=
  m.minor row col * (if (row + col) % 2 = 0 then 1 else -1)

/-- Grid of `Matrix::inverse` after the determinant check: transposed cofactors
divided by the determinant inside the leading block, zeros outside. -/
noncomputable def inverse (m : Matrix) : Matrix :=
  ⟨m.dimension, mkGrid fun r c =>
    if r < m.dimension ∧ c < m.dimension then m.cofactor c r / m.determinant
    else 0⟩

/-- Matrix::inverse from `matrix.rs`: panics (here `none`) when the determinant
is zero; otherwise returns the adjugate divided by the determinant. -/
noncomputable def inverseChecked (m : Matrix) : Option Matrix :=
  if m.determinant = 0 then none else some m.inverse

/-- Matrix multiplication (`impl Mul for Matrix`): row·column accumulation over
the leading block; the panic on mismatched dimensions is not modelled (all
callers multiply equal-dimension matrices). -/
def matMul (a b : Matrix) : Matrix :=
  ⟨a.dimension, mkGrid fun r c =>
    if r < a.dimension ∧ c < a.dimension then
      ∑ i ∈ Finset.range a.dimension, a.get r i * b.get i c
    else 0⟩

/-- Equality test (`impl PartialEq for Matrix`): all sixteen grid cells must
agree within EPSILON and the dimensions must match. -/
def matEq (a b : Matrix) : Prop :=
  (∀ r c : Fin 4, equal (a.grid r c) (b.grid r c)) ∧ a.dimension = b.dimension

/-- matrix × point (`impl Mul<Point> for Matrix`): the translation column is
added (homogeneous w = 1). -/
def mulPoint (m : Matrix) (p : Point) : Point :=
  ⟨p.x * m.get 0 0 + p.y * m.get 0 1 + p.z * m.get 0 2 + m.get 0 3,
   p.x * m.get 1 0 + p.y * m.get 1 1 + p.z * m.get 1 2 + m.get 1 3,
   p.x * m.get 2 0 + p.y * m.get 2 1 + p.z * m.get 2 2 + m.get 2 3⟩

/-- matrix × vector (`impl Mul<Vector> for Matrix`): no translation column
(homogeneous w = 0). -/
def mulVector (m : Matrix) (v : Vector) : Vector :=
  ⟨v.x * m.get 0 0 + v.y * m.get 0 1 + v.z * m.get 0 2,
   v.x * m.get 1 0 + v.y * m.get 1 1 + v.z * m.get 1 2,
   v.x * m.get 2 0 + v.y * m.get 2 1 + v.z * m.get 2 2⟩

/-- Matrix::scaling from `transformations.rs`: diagonal (v.x, v.y, v.z, 1). -/
def scaling (v : Vector) : Matrix :=
  ⟨4, mkGrid fun r c =>
    ([[v.x, 0, 0, 0], [0, v.y, 0, 0], [0, 0, v.z, 0],
      [0, 0, 0, 1]].getD r []).getD c 0⟩

/-- Matrix::translation from `transformations.rs`: identity with the
translation vector in the last column. -/
def translation (v : Vector) : Matrix :=
  ⟨4, mkGrid fun r c =>
    ([[1, 0, 0, v.x], [0, 1, 0, v.y], [0, 0, 1, v.z],
      [0, 0, 0, 1]].getD r []).getD c 0⟩

end Matrix

/-- Material from `material.rs`. -/
structure Material where
  color : Color
  ambient : ℝ
  diffuse : ℝ
  specular : ℝ
  shininess : ℝ

/-- Material::default: white, ambient 0.1, diffuse 0.9, specular 0.9,
shininess 200. -/
def Material.default : Material := ⟨Color.white, 0.1, 0.9, 0.9, 200⟩

/-- PointLight from `light.rs`. -/
structure PointLight where
  position : Point
  intensity : Color

/-- PointLight::default: origin position, white intensity. -/
def PointLight.default : PointLight := ⟨Point.default, Color.white⟩

/-- Material::lighting from `material.rs` (the Phong model); `f64::powf` is
embedded as `Real.rpow`. -/
noncomputable def Material.lighting (m : Material) (point : Point)
    (light : PointLight) (eyev normal : Vector) (in_shadow : Bool) : Color :=
  let effective_color := m.color.mul light.intensity
  let lightv := (light.position.subP point).normalize
  let ambient := effective_color.smul m.ambient
  let light_dot_normal := lightv.dot normal
  if in_shadow then ambient
  else
    let ds :=
      if light_dot_normal < 0 then (Color.black, Color.black)
      else
        let diffuse := (effective_color.smul m.diffuse).smul light_dot_normal
        let reflectv := lightv.neg.reflect normal
        let reflect_dot_eye := reflectv.dot eyev
        let specular :=
          if reflect_dot_eye ≤ 0 then Color.black
          else (light.intensity.smul m.specular).smul
            (Real.rpow reflect_dot_eye m.shininess)
        (diffuse, specular)
    (ambient.add ds.1).add ds.2

/-- Sphere from `sphere.rs`: a transform and a material; geometrically always
the unit sphere at the local origin. -/
structure Sphere where
  transform : Matrix
  material : Material

/-- Sphere::default: identity transform, default material. -/
def Sphere.default : Sphere := ⟨Matrix.eye 4, Material.default⟩

/-- Plane from `plane.rs`: a transform and a material; geometrically always
the local xz-plane. -/
structure Plane where
  transform : Matrix
  material : Material

/-- Plane::default: identity transform, default material. -/
def Plane.default : Plane := ⟨Matrix.eye 4, Material.default⟩

/-- Modelled from the spec: the `Object` tagged union over the closed shape
set, `enum Object { Sphere, Plane }` (spec §3 data model and §9 closed shape
polymorphism); its definition in `shape.rs` is absent from this source
snapshot, which holds an older trait-only version of that file. -/
inductive Object where
  | sphere (s : Sphere)
  | plane (p : Plane)

/-- Modelled from the spec: transform accessor dispatching over the closed
variant set (spec §4.4 common shape contract). -/
def Object.getTransform : Object → Matrix
  | .sphere s => s.transform
  | .plane p => p.transform

/-- Ray from `ray.rs`. -/
structure Ray where
  origin : Point
  direction : Vector

/-- Ray::position: `origin + direction * t`. -/
def Ray.position (r : Ray) (t : ℝ) : Point := r.origin.addV (r.direction.smul t)

/-- Ray::transform: apply a matrix to origin (point rule) and direction
(vector rule). -/
def Ray.transformM (r : Ray) (m : Matrix) : Ray :=
  ⟨m.mulPoint r.origin, m.mulVector r.direction⟩

/-- Intersection from `intersection.rs`: a parameter t and the hit object. -/
structure Intersection where
  t : ℝ
  object : Object

/-- Sphere::local_intersect from `sphere.rs`: the unit-sphere quadratic; a
negative discriminant yields no intersections, otherwise the two roots in
increasing-root order. -/
noncomputable def Sphere.localIntersect (s : Sphere) (ray : Ray) :
    List Intersection :=
  let sphere_to_ray := ray.origin.subP Point.default
  let a := ray.direction.dot ray.direction
  let b := 2 * ray.direction.dot sphere_to_ray
  let c := sphere_to_ray.dot sphere_to_ray - 1
  let discriminant := b * b - 4 * a * c
  if discriminant < 0 then []
  else
    [⟨(-b - Real.sqrt discriminant) / (2 * a), Object.sphere s⟩,
     ⟨(-b + Real.sqrt discriminant) / (2 * a), Object.sphere s⟩]

/-- Plane::local_intersect from `plane.rs`: no hit when |direction.y| is below
EPSILON, otherwise the single root `-origin.y / direction.y`. -/
noncomputable def Plane.localIntersect (p : Plane) (ray : Ray) :
    List Intersection :=
  if |ray.direction.y| < EPSILON then []
  else [⟨-ray.origin.y / ray.direction.y, Object.plane p⟩]

/-- Modelled from the spec: local-intersection dispatch over the closed
variant set (spec §4.4); each arm is the translated source implementation. -/
noncomputable def Object.localIntersect (o : Object) (ray : Ray) :
    List Intersection :=
  match o with
  | .sphere s => s.localIntersect ray
  | .plane p => p.localIntersect ray

/-- Ray-object intersection (`Ray::intersect`, spec §4.4 dispatch): transform
the ray by the inverse of the object transform, then locally intersect. -/
noncomputable def Ray.intersectObject (r : Ray) (o : Object) :
    List Intersection :=
  o.localIntersect (r.transformM o.getTransform.inverse)

/-- Fold of Rust `Iterator::min_by` over the non-empty tail: keeps the first
element attaining the minimal t. -/
noncomputable def minByT (acc : Intersection) : List Intersection → Intersection
  | [] => acc
  | x :: xs => minByT (if x.t < acc.t then x else acc) xs

/-- Intersection::hit from `intersection.rs`: keep intersections with t > 0
and return the first one with minimal t, or none. -/
noncomputable def hit (l : List Intersection) : Option Intersection :=
  match l.filter (fun i => decide (0 < i.t)) with
  | [] => none
  | x :: xs => some (minByT x xs)

/-- World from `world.rs`: objects plus one point light. -/
structure World where
  objects : List Object
  light : PointLight

/-- World::intersect: concatenate per-object intersections in object order,
then sort ascending by t. -/
noncomputable def World.intersect (w : World) (r : Ray) : List Intersection :=
  ((w.objects.map fun o => r.intersectObject o).flatten).mergeSort
    (fun i j => decide (i.t ≤ j.t))

/-- World::is_shadowed from `world.rs`: cast a ray from the point toward the
light; shadowed when the hit exists with t at most the light distance. -/
noncomputable def World.isShadowed (w : World) (point : Point) : Bool :=
  let direction := w.light.position.subP point
  let distance := direction.magnitude
  let ray : Ray := ⟨point, direction.normalize⟩
  (hit (w.intersect ray)).elim false fun i => decide (i.t ≤ distance)

/-- Outer unit sphere of the `test_world` fixture in `world.rs`: identity
transform, custom material (color (0.8, 1, 0.6), diffuse 0.7, specular 0.2,
remaining fields default). -/
def tws1 : Sphere := ⟨Matrix.eye 4, ⟨⟨0.8, 1.0, 0.6⟩, 0.1, 0.7, 0.2, 200⟩⟩

/-- Inner half-scale sphere of the `test_world` fixture in `world.rs`:
uniform 0.5 scaling, default material. -/
def tws2 : Sphere := ⟨Matrix.scaling ⟨0.5, 0.5, 0.5⟩, Material.default⟩

/-- Canonical two-sphere scene from the `test_world` fixture in `world.rs`:
the two spheres above, lit by a white light at (−10, 10, −10). -/
def testWorld : World :=
  ⟨[Object.sphere tws1, Object.sphere tws2], ⟨⟨-10, 10, -10⟩, Color.white⟩⟩

/-- Camera from `camera.rs`. -/
structure Camera where
  h_size : ℕ
  v_size : ℕ
  field_of_view : ℝ
  transform : Matrix
  half_width : ℝ
  half_height : ℝ
  pixel_size : ℝ

/-- Camera::new from `camera.rs`: derives half_view, aspect, half extents and
pixel size; the transform starts as the identity. -/
noncomputable def Camera.new (h_size v_size : ℕ) (field_of_view : ℝ) :
    Camera :=
  let half_view := Real.tan (field_of_view / 2)
  let aspect := (h_size : ℝ) / (v_size : ℝ)
  let pair :=
    if 1 < aspect then (half_view, half_view / aspect)
    else (half_view * aspect, half_view)
  let pixel_size := pair.1 * 2 / (h_size : ℝ)
  ⟨h_size, v_size, field_of_view, Matrix.eye 4, pair.1, pair.2, pixel_size⟩

/-! Helper lemmas. -/

/-- Exactly equal reals are equal within the tolerance. -/
theorem equal_of_eq {a b : ℝ} (h : a = b) : equal a b := by
  norm_num [equal, h, EPSILON]

/-- Value of the min_by fold: a member of the seed or the tail. -/
theorem minByT_mem (acc : Intersection) (xs : List Intersection) :
    minByT acc xs ∈ acc :: xs := by
  induction xs generalizing acc with
  | nil => simp [minByT]
  | cons x xs ih =>
    rcases List.mem_cons.1 (ih (if x.t < acc.t then x else acc)) with h | h
    · by_cases hx : x.t < acc.t
      · simp only [minByT, if_pos hx] at h ⊢
        simp [h]
      · simp only [minByT, if_neg hx] at h ⊢
        simp [h]
    · simp [minByT, List.mem_cons.2 (Or.inr h)]

/-- Value of the min_by fold: below the seed and every tail element. -/
theorem minByT_le (acc : Intersection) (xs : List Intersection) :
    (minByT acc xs).t ≤ acc.t ∧ ∀ x ∈ xs, (minByT acc xs).t ≤ x.t := by
  induction xs generalizing acc with
  | nil => simp [minByT]
  | cons x xs ih =>
    obtain ⟨h1, h2⟩ := ih (if x.t < acc.t then x else acc)
    by_cases hx : x.t < acc.t
    · simp only [minByT, if_pos hx] at h1 h2 ⊢
      exact ⟨le_trans h1 (le_of_lt hx), fun y hy => by
        rcases List.mem_cons.1 hy with h | h
        · exact h ▸ h1
        · exact h2 y h⟩
    · simp only [minByT, if_neg hx] at h1 h2 ⊢
      exact ⟨h1, fun y hy => by
        rcases List.mem_cons.1 hy with h | h
        · exact h ▸ le_trans h1 (not_lt.1 hx)
        · exact h2 y h⟩

/-- Default-sphere object used in the concrete hit examples. -/
def sDefault : Object := Object.sphere Sphere.default

/-- Characterization of hit returning none: no positive-t intersection. -/
theorem hit_none_iff (l : List Intersection) :
    hit l = none ↔ ∀ i ∈ l, i.t ≤ 0 := by
  constructor
  · intro h i hi
    by_contra hpos
    have hmem : i ∈ l.filter (fun i => decide (0 < i.t)) :=
      List.mem_filter.2 ⟨hi, by simpa using not_le.1 hpos⟩
    rcases hfe : l.filter (fun i => decide (0 < i.t)) with _ | ⟨x, xs⟩
    · rw [hfe] at hmem; simp at hmem
    · simp [hit, hfe] at h
  · intro h
    have : l.filter (fun i => decide (0 < i.t)) = [] :=
      List.filter_eq_nil_iff.2 fun i hi => by simpa using h i hi
    simp [hit, this]

/-- Characterization of hit returning an intersection: it is a member with
positive t, minimal among the positive-t members. -/
theorem hit_some_spec (l : List Intersection) (i : Intersection)
    (hi : hit l = some i) :
    i ∈ l ∧ 0 < i.t ∧ ∀ j ∈ l, 0 < j.t → i.t ≤ j.t := by
  rcases hfe : l.filter (fun i => decide (0 < i.t)) with _ | ⟨x, xs⟩
  · simp [hit, hfe] at hi
  · simp only [hit, hfe] at hi
    have hi' : i = minByT x xs := by simpa using hi.symm
    have hmem : i ∈ x :: xs := hi' ▸ minByT_mem x xs
    have hmemf : i ∈ l.filter (fun i => decide (0 < i.t)) := hfe ▸ hmem
    obtain ⟨hil, hipos⟩ := List.mem_filter.1 hmemf
    refine ⟨hil, by simpa using hipos, fun j hj hjpos => ?_⟩
    have hjf : j ∈ l.filter (fun i => decide (0 < i.t)) :=
      List.mem_filter.2 ⟨hj, by simpa using hjpos⟩
    rw [hfe] at hjf
    obtain ⟨h1, h2⟩ := minByT_le x xs
    rcases List.mem_cons.1 hjf with h | h
    · exact hi' ▸ h ▸ h1
    · exact hi' ▸ h2 j h

/-- C2: Intersection::hit discards every intersection with t ≤ 0 and returns
an intersection with the minimal t among those remaining (none when no
intersection has positive t); over t-values {5, 7, −3, 2} it returns the one
with t = 2, over {−2, −1} it returns none.  (Real-number embedding: NaN does
not exist, so the no-NaN proviso of the claim is vacuous.) -/
theorem hit_spec (l : List Intersection) :
    (hit l = none ↔ ∀ i ∈ l, i.t ≤ 0) ∧
    (∀ i, hit l = some i → i ∈ l ∧ 0 < i.t ∧ ∀ j ∈ l, 0 < j.t → i.t ≤ j.t) ∧
    hit [⟨5, sDefault⟩, ⟨7, sDefault⟩, ⟨-3, sDefault⟩, ⟨2, sDefault⟩] =
      some ⟨2, sDefault⟩ ∧
    hit [⟨-2, sDefault⟩, ⟨-1, sDefault⟩] = none := by
  refine ⟨hit_none_iff l, fun i => hit_some_spec l i, ?_, ?_⟩
  · norm_num [hit, List.filter_cons, minByT]
  · norm_num [hit, List.filter_cons, minByT]

/-- C2 witness: the empty-list instance of the none case. -/
theorem hit_spec_witness : hit [] = none :=
  (hit_spec []).1.mpr (by simp)

/-- Square roots of perfect squares. -/
theorem sqrtEval {a b : ℝ} (hb : 0 ≤ b) (h : b ^ 2 = a) : Real.sqrt a = b := by
  rw [← h, Real.sqrt_sq hb]

/-- Square root of 100. -/
theorem sqrt_hundred : Real.sqrt 100 = 10 := sqrtEval (by norm_num) (by norm_num)

/-- Square root of 4. -/
theorem sqrt_four : Real.sqrt 4 = 2 := sqrtEval (by norm_num) (by norm_num)

/-- Rust `1.0f64.powf(y)` is 1. -/
theorem rpow_one_base (x : ℝ) : Real.rpow 1 x = 1 := Real.one_rpow x

/-- C4: Material::lighting with `in_shadow` returns only the ambient term,
base color times light intensity componentwise times the ambient coefficient;
with the default material, eye (0,0,−1), normal (0,0,−1) and a white light at
(0,0,−10) it returns (1.9, 1.9, 1.9) unshadowed and (0.1, 0.1, 0.1) in
shadow. -/
theorem lighting_spec :
    (∀ (m : Material) (p : Point) (l : PointLight) (e n : Vector),
      m.lighting p l e n true = (m.color.mul l.intensity).smul m.ambient) ∧
    Material.default.lighting Point.default ⟨⟨0, 0, -10⟩, Color.white⟩
      ⟨0, 0, -1⟩ ⟨0, 0, -1⟩ false = ⟨1.9, 1.9, 1.9⟩ ∧
    Material.default.lighting Point.default ⟨⟨0, 0, -10⟩, Color.white⟩
      ⟨0, 0, -1⟩ ⟨0, 0, -1⟩ true = ⟨0.1, 0.1, 0.1⟩ := by
  refine ⟨fun m p l e n => rfl, ?_, ?_⟩
  · norm_num [Material.lighting, Material.default, Color.white, Color.mul,
      Color.smul, Color.add, Color.black, Point.subP, Point.default,
      Vector.normalize, Vector.magnitude, Vector.dot, Vector.neg,
      Vector.reflect, Vector.sub, Vector.smul, sqrt_hundred, rpow_one_base]
  · norm_num [Material.lighting, Material.default, Color.white, Color.mul,
      Color.smul, Point.subP, Point.default]

/-- C6: Plane::local_intersect returns no intersections when |direction.y| is
below EPSILON = 1e-4 and otherwise exactly one intersection at
t = −origin.y / direction.y; with the three concrete rays of the spec. -/
theorem plane_local_intersect_spec (p : Plane) (r : Ray) :
    (|r.direction.y| < EPSILON → p.localIntersect r = []) ∧
    (¬ |r.direction.y| < EPSILON →
      p.localIntersect r =
        [⟨-r.origin.y / r.direction.y, Object.plane p⟩]) ∧
    Plane.default.localIntersect ⟨⟨0, 10, 0⟩, ⟨0, 0, 1⟩⟩ = [] ∧
    Plane.default.localIntersect ⟨⟨0, 0, 0⟩, ⟨0, 0, 1⟩⟩ = [] ∧
    Plane.default.localIntersect ⟨⟨0, 1, 0⟩, ⟨0, -1, 0⟩⟩ =
      [⟨1, Object.plane Plane.default⟩] := by
  refine ⟨fun h => ?_, fun h => ?_, ?_, ?_, ?_⟩
  · simp [Plane.localIntersect, h]
  · simp [Plane.localIntersect, h]
  · norm_num [Plane.localIntersect, EPSILON]
  · norm_num [Plane.localIntersect, EPSILON]
  · norm_num [Plane.localIntersect, EPSILON]

/-- C6 witness: the parallel-ray case discharged at a concrete ray. -/
theorem plane_local_intersect_spec_witness :
    Plane.default.localIntersect ⟨⟨3, 7, 0⟩, ⟨1, 0, 0⟩⟩ = [] :=
  (plane_local_intersect_spec Plane.default ⟨⟨3, 7, 0⟩, ⟨1, 0, 0⟩⟩).1
    (by norm_num [EPSILON])

/-- C7: the quantities Camera::new derives from positive pixel counts and a
field of view satisfy the spec equations: with half_view = tan(fov/2) and
aspect = h/v, half_width and half_height are (half_view, half_view/aspect)
when aspect ≥ 1 and (half_view·aspect, half_view) otherwise, and pixel_size
is 2·half_width/h_size.  (The code branches on aspect > 1; at aspect = 1 both
branches produce identical values.) -/
theorem camera_new_spec (h v : ℕ) (fov : ℝ) (_hh : 0 < h) (_hv : 0 < v) :
    (1 ≤ (h : ℝ) / (v : ℝ) →
      (Camera.new h v fov).half_width = Real.tan (fov / 2) ∧
      (Camera.new h v fov).half_height =
        Real.tan (fov / 2) / ((h : ℝ) / (v : ℝ))) ∧
    ((h : ℝ) / (v : ℝ) < 1 →
      (Camera.new h v fov).half_width =
        Real.tan (fov / 2) * ((h : ℝ) / (v : ℝ)) ∧
      (Camera.new h v fov).half_height = Real.tan (fov / 2)) ∧
    (Camera.new h v fov).pixel_size =
      2 * (Camera.new h v fov).half_width / (h : ℝ) := by
  refine ⟨fun hasp => ?_, fun hasp => ?_, ?_⟩
  · rcases lt_or_eq_of_le hasp with h1 | h1
    · simp [Camera.new, if_pos h1]
    · simp [Camera.new, ← h1]
  · have h1 : ¬ 1 < (h : ℝ) / (v : ℝ) := not_lt.2 (le_of_lt hasp)
    simp [Camera.new, if_neg h1]
  · by_cases h1 : 1 < (h : ℝ) / (v : ℝ) <;>
      simp [Camera.new, h1, mul_comm]

/-- C7 witness: the wide-aspect case at a 2×1 camera. -/
theorem camera_new_spec_witness :
    (Camera.new 2 1 0).half_width = Real.tan (0 / 2) ∧
    (Camera.new 2 1 0).half_height =
      Real.tan (0 / 2) / (((2 : ℕ) : ℝ) / ((1 : ℕ) : ℝ)) :=
  (camera_new_spec 2 1 0 (by norm_num) (by norm_num)).1 (by norm_num)

/-- C9: Matrix::new panics exactly when the dimension exceeds 4 or the
contents length is not dimension²; any constructed matrix has dimension at
most 4. -/
theorem new_checked_spec (d : ℕ) (contents : List ℝ) :
    (Matrix.newChecked d contents = none ↔
      4 < d ∨ contents.length ≠ d * d) ∧
    ∀ m, Matrix.newChecked d contents = some m → m.dimension ≤ 4 := by
  constructor
  · by_cases hc : 4 < d ∨ contents.length ≠ d * d
    · simp [Matrix.newChecked, hc]
    · simp [Matrix.newChecked, hc]
  · intro m hm
    by_cases hc : 4 < d ∨ contents.length ≠ d * d
    · simp [Matrix.newChecked, hc] at hm
    · simp only [Matrix.newChecked, if_neg hc] at hm
      obtain ⟨h4, _⟩ := not_or.1 hc
      rw [← Option.some.inj hm]
      exact le_of_not_lt h4

/-- C9 witness: an oversized dimension is rejected. -/
theorem new_checked_spec_witness : Matrix.newChecked 5 [] = none :=
  (new_checked_spec 5 []).1.mpr (by norm_num)

/-- C3: Matrix::inverse signals the fatal error exactly when the determinant
is zero, and otherwise the entry at (r, c) of the inverse is
cofactor(M, c, r) divided by the determinant.  Every matrix the program can
construct has dimension at most 4 (claim C9), hence the hypothesis. -/
theorem inverse_checked_spec (m : Matrix) (hdim : m.dimension ≤ 4) :
    (m.inverseChecked = none ↔ m.determinant = 0) ∧
    (m.determinant ≠ 0 → ∀ r c, r < m.dimension → c < m.dimension →
      m.inverse.get r c = m.cofactor c r / m.determinant) := by
  constructor
  · by_cases h : m.determinant = 0 <;> simp [Matrix.inverseChecked, h]
  · intro _ r c hr hc
    have hr4 : r < 4 := lt_of_lt_of_le hr hdim
    have hc4 : c < 4 := lt_of_lt_of_le hc hdim
    simp [Matrix.inverse, Matrix.get, mkGrid, hr, hc, hr4, hc4]

/-- C3 witness: the 2×2 identity, with determinant 1, at entry (0, 0). -/
theorem inverse_checked_spec_witness :
    (Matrix.eye 2).determinant ≠ 0 ∧
    (Matrix.eye 2).inverse.get 0 0 =
      (Matrix.eye 2).cofactor 0 0 / (Matrix.eye 2).determinant := by
  have hdet : (Matrix.eye 2).determinant = 1 := by
    norm_num [Matrix.determinant, Matrix.detAux, Matrix.eye, Matrix.get,
      mkGrid]
  refine ⟨by rw [hdet]; norm_num, ?_⟩
  exact (inverse_checked_spec (Matrix.eye 2) (by norm_num [Matrix.eye])).2
    (by rw [hdet]; norm_num) 0 0 (by norm_num [Matrix.eye])
    (by norm_num [Matrix.eye])

/-- Unfolding of Sphere::local_intersect with the three quadratic
coefficients abstracted. -/
theorem sphereLI_eval (s : Sphere) (r : Ray) (b a c : ℝ)
    (hb : b = 2 * r.direction.dot (r.origin.subP Point.default))
    (ha : a = r.direction.dot r.direction)
    (hc : c =
      (r.origin.subP Point.default).dot (r.origin.subP Point.default) - 1) :
    s.localIntersect r =
      if b * b - 4 * a * c < 0 then []
      else
        [⟨(-b - Real.sqrt (b * b - 4 * a * c)) / (2 * a), Object.sphere s⟩,
         ⟨(-b + Real.sqrt (b * b - 4 * a * c)) / (2 * a), Object.sphere s⟩] := by
  subst hb ha hc
  rfl

/-- C1: Sphere::local_intersect returns no intersections when the
discriminant b²−4ac of the unit-sphere quadratic is negative and otherwise
exactly the two roots (−b∓√disc)/(2a) in that order, together with the five
concrete rays of the spec against the unit sphere. -/
theorem sphere_local_intersect_spec (s : Sphere) (r : Ray) :
    ((2 * r.direction.dot (r.origin.subP Point.default)) ^ 2 -
        4 * (r.direction.dot r.direction) *
          ((r.origin.subP Point.default).dot (r.origin.subP Point.default) -
            1) < 0 →
      s.localIntersect r = []) ∧
    (0 ≤ (2 * r.direction.dot (r.origin.subP Point.default)) ^ 2 -
        4 * (r.direction.dot r.direction) *
          ((r.origin.subP Point.default).dot (r.origin.subP Point.default) -
            1) →
      s.localIntersect r =
        [⟨(-(2 * r.direction.dot (r.origin.subP Point.default)) -
            Real.sqrt ((2 * r.direction.dot (r.origin.subP Point.default)) ^ 2 -
              4 * (r.direction.dot r.direction) *
                ((r.origin.subP Point.default).dot
                  (r.origin.subP Point.default) - 1))) /
            (2 * r.direction.dot r.direction), Object.sphere s⟩,
         ⟨(-(2 * r.direction.dot (r.origin.subP Point.default)) +
            Real.sqrt ((2 * r.direction.dot (r.origin.subP Point.default)) ^ 2 -
              4 * (r.direction.dot r.direction) *
                ((r.origin.subP Point.default).dot
                  (r.origin.subP Point.default) - 1))) /
            (2 * r.direction.dot r.direction), Object.sphere s⟩]) ∧
    Sphere.default.localIntersect ⟨⟨0, 0, -5⟩, ⟨0, 0, 1⟩⟩ =
      [⟨4, Object.sphere Sphere.default⟩, ⟨6, Object.sphere Sphere.default⟩] ∧
    Sphere.default.localIntersect ⟨⟨0, 1, -5⟩, ⟨0, 0, 1⟩⟩ =
      [⟨5, Object.sphere Sphere.default⟩, ⟨5, Object.sphere Sphere.default⟩] ∧
    Sphere.default.localIntersect ⟨⟨0, 2, -5⟩, ⟨0, 0, 1⟩⟩ = [] ∧
    Sphere.default.localIntersect ⟨⟨0, 0, 0⟩, ⟨0, 0, 1⟩⟩ =
      [⟨-1, Object.sphere Sphere.default⟩, ⟨1, Object.sphere Sphere.default⟩] ∧
    Sphere.default.localIntersect ⟨⟨0, 0, 5⟩, ⟨0, 0, 1⟩⟩ =
      [⟨-6, Object.sphere Sphere.default⟩,
       ⟨-4, Object.sphere Sphere.default⟩] := by
  have base := sphereLI_eval s r _ _ _ rfl rfl rfl
  refine ⟨fun h => ?_, fun h => ?_, ?_, ?_, ?_, ?_, ?_⟩
  · rw [base, if_pos (by rw [← pow_two]; exact h)]
  · rw [base, if_neg (by rw [← pow_two]; exact not_lt.2 h)]
    rw [pow_two]
  · rw [sphereLI_eval _ _ (-10) 1 24
      (by norm_num [Vector.dot, Point.subP, Point.default])
      (by norm_num [Vector.dot])
      (by norm_num [Vector.dot, Point.subP, Point.default])]
    norm_num [show ((-10 : ℝ)) * (-10) - 4 * 1 * 24 = 4 by norm_num,
      sqrt_four]
  · rw [sphereLI_eval _ _ (-10) 1 25
      (by norm_num [Vector.dot, Point.subP, Point.default])
      (by norm_num [Vector.dot])
      (by norm_num [Vector.dot, Point.subP, Point.default])]
    norm_num
  · rw [sphereLI_eval _ _ (-10) 1 28
      (by norm_num [Vector.dot, Point.subP, Point.default])
      (by norm_num [Vector.dot])
      (by norm_num [Vector.dot, Point.subP, Point.default])]
    norm_num
  · rw [sphereLI_eval _ _ 0 1 (-1)
      (by norm_num [Vector.dot, Point.subP, Point.default])
      (by norm_num [Vector.dot])
      (by norm_num [Vector.dot, Point.subP, Point.default])]
    norm_num [show ((0 : ℝ)) * 0 - 4 * 1 * (-1) = 4 by norm_num, sqrt_four]
  · rw [sphereLI_eval _ _ 10 1 24
      (by norm_num [Vector.dot, Point.subP, Point.default])
      (by norm_num [Vector.dot])
      (by norm_num [Vector.dot, Point.subP, Point.default])]
    norm_num [show ((10 : ℝ)) * 10 - 4 * 1 * 24 = 4 by norm_num, sqrt_four]

/-- C1 witness: the negative-discriminant case discharged at the concrete
missing ray. -/
theorem sphere_local_intersect_spec_witness :
    Sphere.default.localIntersect ⟨⟨0, 3, -5⟩, ⟨0, 0, 1⟩⟩ = [] :=
  (sphere_local_intersect_spec Sphere.default ⟨⟨0, 3, -5⟩, ⟨0, 0, 1⟩⟩).1
    (by norm_num [Vector.dot, Point.subP, Point.default])

/-- Invariant of claim C10: the backing grid is zero at every cell outside
the leading dimension×dimension block. -/
def outsideZero (m : Matrix) : Prop :=
  ∀ r c : Fin 4, m.dimension ≤ r.val ∨ m.dimension ≤ c.val → m.grid r c = 0

/-- C10: every matrix produced by new, eye, transpose, submatrix, matrix
multiplication or inverse is zero outside the leading block, and under this
invariant the sixteen-cell epsilon equality test coincides with comparing
only the logical dimension×dimension entries (given equal dimensions). -/
theorem grid_invariant_spec :
    (∀ (d : ℕ) (l : List ℝ) (m : Matrix),
      Matrix.newChecked d l = some m → outsideZero m) ∧
    (∀ d : ℕ, outsideZero (Matrix.eye d)) ∧
    (∀ m : Matrix, outsideZero m.transpose) ∧
    (∀ (m : Matrix) (r c : ℕ), outsideZero (m.submatrix r c)) ∧
    (∀ a b : Matrix, outsideZero (a.matMul b)) ∧
    (∀ m : Matrix, outsideZero m.inverse) ∧
    (∀ a b : Matrix, outsideZero a → outsideZero b →
      (a.matEq b ↔ a.dimension = b.dimension ∧
        ∀ r c : Fin 4, r.val < a.dimension → c.val < a.dimension →
          equal (a.grid r c) (b.grid r c))) := by
  refine ⟨?_, ?_, ?_, ?_, ?_, ?_, ?_⟩
  · intro d l m hm r c hrc
    by_cases hcond : 4 < d ∨ l.length ≠ d * d
    · simp [Matrix.newChecked, hcond] at hm
    · simp only [Matrix.newChecked, if_neg hcond] at hm
      obtain rfl := Option.some.inj hm
      have : ¬ (r.val < d ∧ c.val < d) := by
        rcases hrc with h | h
        · exact fun hx => absurd hx.1 (not_lt.2 h)
        · exact fun hx => absurd hx.2 (not_lt.2 h)
      simp [mkGrid, this]
  · intro d r c hrc
    have : ¬ (r.val = c.val ∧ r.val < d) := by
      rcases hrc with h | h
      · exact fun hx => absurd hx.2 (not_lt.2 h)
      · exact fun hx => absurd (hx.1 ▸ hx.2) (not_lt.2 h)
    simp [Matrix.eye, mkGrid, this]
  · intro m r c hrc
    have : ¬ (r.val < m.dimension ∧ c.val < m.dimension) := by
      rcases hrc with h | h
      · exact fun hx => absurd hx.1 (not_lt.2 h)
      · exact fun hx => absurd hx.2 (not_lt.2 h)
    simp [Matrix.transpose, mkGrid, this]
  · intro m r0 c0 r c hrc
    have : ¬ (r.val < m.dimension - 1 ∧ c.val < m.dimension - 1) := by
      rcases hrc with h | h
      · exact fun hx => absurd hx.1 (not_lt.2 h)
      · exact fun hx => absurd hx.2 (not_lt.2 h)
    simp [Matrix.submatrix, mkGrid, this]
  · intro a b r c hrc
    have : ¬ (r.val < a.dimension ∧ c.val < a.dimension) := by
      rcases hrc with h | h
      · exact fun hx => absurd hx.1 (not_lt.2 h)
      · exact fun hx => absurd hx.2 (not_lt.2 h)
    simp [Matrix.matMul, mkGrid, this]
  · intro m r c hrc
    have : ¬ (r.val < m.dimension ∧ c.val < m.dimension) := by
      rcases hrc with h | h
      · exact fun hx => absurd hx.1 (not_lt.2 h)
      · exact fun hx => absurd hx.2 (not_lt.2 h)
    simp [Matrix.inverse, mkGrid, this]
  · intro a b ha hb
    constructor
    · intro ⟨hcells, hdims⟩
      exact ⟨hdims, fun r c _ _ => hcells r c⟩
    · intro ⟨hdims, hcells⟩
      refine ⟨fun r c => ?_, hdims⟩
      by_cases hr : r.val < a.dimension
      · by_cases hc : c.val < a.dimension
        · exact hcells r c hr hc
        · rw [ha r c (Or.inr (not_lt.1 hc)),
            hb r c (Or.inr (hdims ▸ not_lt.1 hc))]
          exact equal_of_eq rfl
      · rw [ha r c (Or.inl (not_lt.1 hr)),
          hb r c (Or.inl (hdims ▸ not_lt.1 hr))]
        exact equal_of_eq rfl

/-- C10 witness: equality-test coincidence applied to the 2×2 identity. -/
theorem grid_invariant_spec_witness :
    (Matrix.eye 2).matEq (Matrix.eye 2) :=
  (grid_invariant_spec.2.2.2.2.2.2 (Matrix.eye 2) (Matrix.eye 2)
      (grid_invariant_spec.2.1 2) (grid_invariant_spec.2.1 2)).mpr
    ⟨rfl, fun _ _ _ _ => equal_of_eq rfl⟩

/-- Unfolding of the determinant recursion at positive fuel. -/
theorem detAux_step (fuel : ℕ) (m : Matrix) :
    Matrix.detAux (fuel + 1) m =
      if m.dimension = 2 then
        m.get 0 0 * m.get 1 1 - m.get 0 1 * m.get 1 0
      else ∑ row ∈ Finset.range m.dimension,
        m.get row 0 * (Matrix.detAux fuel (m.submatrix row 0) *
          (if (row + 0) % 2 = 0 then 1 else -1)) := rfl

/-- Determinant recursion unfolded at fuel 4. -/
theorem detAux_four (m : Matrix) :
    Matrix.detAux 4 m =
      if m.dimension = 2 then
        m.get 0 0 * m.get 1 1 - m.get 0 1 * m.get 1 0
      else ∑ row ∈ Finset.range m.dimension,
        m.get row 0 * (Matrix.detAux 3 (m.submatrix row 0) *
          (if (row + 0) % 2 = 0 then 1 else -1)) := detAux_step 3 m

/-- Determinant recursion unfolded at fuel 3. -/
theorem detAux_three (m : Matrix) :
    Matrix.detAux 3 m =
      if m.dimension = 2 then
        m.get 0 0 * m.get 1 1 - m.get 0 1 * m.get 1 0
      else ∑ row ∈ Finset.range m.dimension,
        m.get row 0 * (Matrix.detAux 2 (m.submatrix row 0) *
          (if (row + 0) % 2 = 0 then 1 else -1)) := detAux_step 2 m

/-- Determinant recursion unfolded at fuel 2. -/
theorem detAux_two (m : Matrix) :
    Matrix.detAux 2 m =
      if m.dimension = 2 then
        m.get 0 0 * m.get 1 1 - m.get 0 1 * m.get 1 0
      else ∑ row ∈ Finset.range m.dimension,
        m.get row 0 * (Matrix.detAux 1 (m.submatrix row 0) *
          (if (row + 0) % 2 = 0 then 1 else -1)) := detAux_step 1 m

set_option maxHeartbeats 4000000 in
/-- Cofactor expansion of the 4×4 determinant along an arbitrary row, and the
alien-cofactor vanishing identity (expansion of row r against the cofactors
of row c): the source's first-column recursion satisfies both. -/
theorem rowExpansion (g : Fin 4 → Fin 4 → ℝ) (r c : ℕ) (hr : r < 4)
    (hc : c < 4) :
    ∑ i ∈ Finset.range 4,
      (Matrix.mk 4 g).get r i * (Matrix.mk 4 g).cofactor c i =
      if r = c then (Matrix.mk 4 g).determinant else 0 := by
  interval_cases r <;> interval_cases c <;>
    · norm_num [Matrix.get, Matrix.cofactor, Matrix.minor, Matrix.determinant,
        detAux_four, detAux_three, detAux_two, Matrix.submatrix, mkGrid,
        Finset.sum_range_succ]
      try ring

/-- C8: for every 4×4 matrix with nonzero determinant, the product of the
matrix with its inverse equals the 4×4 identity under the program's
componentwise epsilon equality (the product is exactly the identity in the
real-number embedding). -/
theorem matrix_mul_inverse_spec (m : Matrix) (hdim : m.dimension = 4)
    (hdet : m.determinant ≠ 0) :
    (m.matMul m.inverse).matEq (Matrix.eye 4) := by
  obtain ⟨d, g⟩ := m
  have hd : d = 4 := hdim
  subst hd
  refine ⟨fun r c => ?_, rfl⟩
  apply equal_of_eq
  have expand :
      ((Matrix.mk 4 g).matMul (Matrix.mk 4 g).inverse).grid r c =
        ∑ i ∈ Finset.range 4,
          (Matrix.mk 4 g).get r.val i *
            ((Matrix.mk 4 g).cofactor c.val i /
              (Matrix.mk 4 g).determinant) := by
    simp only [Matrix.matMul, Matrix.inverse, mkGrid]
    rw [if_pos ⟨r.isLt, c.isLt⟩]
    refine Finset.sum_congr rfl fun i hi => ?_
    have hi4 : i < 4 := Finset.mem_range.1 hi
    simp [Matrix.get, mkGrid, hi4, c.isLt]
  rw [expand]
  have div_form :
      ∑ i ∈ Finset.range 4,
          (Matrix.mk 4 g).get r.val i *
            ((Matrix.mk 4 g).cofactor c.val i /
              (Matrix.mk 4 g).determinant) =
        (∑ i ∈ Finset.range 4,
          (Matrix.mk 4 g).get r.val i * (Matrix.mk 4 g).cofactor c.val i) /
          (Matrix.mk 4 g).determinant := by
    rw [Finset.sum_div]
    exact Finset.sum_congr rfl fun i _ => (mul_div_assoc _ _ _).symm
  rw [div_form, rowExpansion g r.val c.val r.isLt c.isLt]
  by_cases hrc : r = c
  · subst hrc
    rw [if_pos rfl, div_self hdet]
    simp [Matrix.eye, mkGrid, r.isLt]
  · rw [if_neg fun h => hrc (Fin.ext h), zero_div]
    have hne : ¬ r.val = c.val := fun h => hrc (Fin.ext h)
    simp [Matrix.eye, mkGrid, hne]

/-- Determinant of the 4×4 identity. -/
theorem det_eye_four : (Matrix.eye 4).determinant = 1 := by
  norm_num [Matrix.determinant, detAux_four, detAux_three, detAux_two,
    Matrix.eye, Matrix.submatrix, Matrix.get, mkGrid, Finset.sum_range_succ]

/-- C8 witness: the identity matrix, whose determinant is 1. -/
theorem matrix_mul_inverse_spec_witness :
    ((Matrix.eye 4).matMul (Matrix.eye 4).inverse).matEq (Matrix.eye 4) :=
  matrix_mul_inverse_spec (Matrix.eye 4) rfl
    (by rw [det_eye_four]; norm_num)

/-- Square root of 16. -/
theorem sqrt_sixteen : Real.sqrt 16 = 4 := sqrtEval (by norm_num) (by norm_num)

/-- Extensionality for the matrix structure. -/
theorem matrixExt {m1 m2 : Matrix} (hd : m1.dimension = m2.dimension)
    (hg : ∀ r c : Fin 4, m1.grid r c = m2.grid r c) : m1 = m2 := by
  obtain ⟨d1, g1⟩ := m1
  obtain ⟨d2, g2⟩ := m2
  have hd' : d1 = d2 := hd
  subst hd'
  have hg' : g1 = g2 := funext fun r => funext fun c => hg r c
  rw [hg']

set_option maxHeartbeats 2000000 in
/-- Inverting the 4×4 identity yields the 4×4 identity. -/
theorem inv_eye4 : (Matrix.eye 4).inverse = Matrix.eye 4 := by
  refine matrixExt rfl fun r c => ?_
  fin_cases r <;> fin_cases c <;>
    · simp only [Matrix.inverse, mkGrid, det_eye_four]
      norm_num [Matrix.cofactor, Matrix.minor, Matrix.determinant,
        detAux_three, detAux_two, Matrix.submatrix, Matrix.eye, Matrix.get,
        mkGrid, Finset.sum_range_succ]

set_option maxHeartbeats 1000000 in
/-- Determinant of the uniform 0.5 scaling matrix. -/
theorem det_scaling_half :
    (Matrix.scaling ⟨0.5, 0.5, 0.5⟩).determinant = 1 / 8 := by
  norm_num [Matrix.determinant, detAux_four, detAux_three, detAux_two,
    Matrix.submatrix, Matrix.scaling, Matrix.get, mkGrid,
    Finset.sum_range_succ, List.getD]

set_option maxHeartbeats 4000000 in
/-- Inverting the uniform 0.5 scaling yields the uniform 2 scaling. -/
theorem inv_scaling_half :
    (Matrix.scaling ⟨0.5, 0.5, 0.5⟩).inverse = Matrix.scaling ⟨2, 2, 2⟩ := by
  refine matrixExt rfl fun r c => ?_
  fin_cases r <;> fin_cases c <;>
    · simp only [Matrix.inverse, mkGrid, det_scaling_half]
      norm_num [Matrix.cofactor, Matrix.minor, Matrix.determinant,
        detAux_three, detAux_two, Matrix.submatrix, Matrix.scaling,
        Matrix.get, mkGrid, Finset.sum_range_succ, List.getD]

/-- Transforming a ray by the identity does not change it. -/
theorem transformM_eye (r : Ray) : r.transformM (Matrix.eye 4) = r := by
  obtain ⟨⟨px, py, pz⟩, ⟨dx, dy, dz⟩⟩ := r
  norm_num [Ray.transformM, Matrix.mulPoint, Matrix.mulVector, Matrix.eye,
    Matrix.get, mkGrid]

/-- Transforming a ray by the uniform 2 scaling doubles all components. -/
theorem transformM_scaling2 (r : Ray) :
    r.transformM (Matrix.scaling ⟨2, 2, 2⟩) =
      ⟨⟨r.origin.x * 2, r.origin.y * 2, r.origin.z * 2⟩,
       ⟨r.direction.x * 2, r.direction.y * 2, r.direction.z * 2⟩⟩ := by
  obtain ⟨⟨px, py, pz⟩, ⟨dx, dy, dz⟩⟩ := r
  norm_num [Ray.transformM, Matrix.mulPoint, Matrix.mulVector,
    Matrix.scaling, Matrix.get, mkGrid, List.getD]

/-- Shadow test characterized over the unsorted concatenated intersection
list: the point is shadowed exactly when some intersection has positive t at
most the light distance. -/
theorem shadowedIffExistsMem (w : World) (p : Point) :
    w.isShadowed p = true ↔
      ∃ i ∈ (w.objects.map fun o =>
          Ray.intersectObject ⟨p, (w.light.position.subP p).normalize⟩
            o).flatten,
        0 < i.t ∧ i.t ≤ (w.light.position.subP p).magnitude := by
  simp only [World.isShadowed]
  rcases hhit : hit (w.intersect
      ⟨p, (w.light.position.subP p).normalize⟩) with _ | a
  · simp only [hhit, Option.elim]
    constructor
    · intro h; exact absurd h (by simp)
    · rintro ⟨i, hi, hpos, _⟩
      have hiL : i ∈ w.intersect
          ⟨p, (w.light.position.subP p).normalize⟩ := by
        rw [World.intersect]
        exact List.mem_mergeSort.2 hi
      exact absurd hpos (not_lt.2 ((hit_none_iff _).1 hhit i hiL))
  · simp only [hhit, Option.elim, decide_eq_true_eq]
    obtain ⟨hmem, hpos, hmin⟩ := hit_some_spec _ a hhit
    constructor
    · intro hle
      refine ⟨a, ?_, hpos, hle⟩
      rw [World.intersect] at hmem
      exact List.mem_mergeSort.1 hmem
    · rintro ⟨j, hj, hjpos, hjle⟩
      have hjL : j ∈ w.intersect
          ⟨p, (w.light.position.subP p).normalize⟩ := by
        rw [World.intersect]
        exact List.mem_mergeSort.2 hj
      exact le_trans (hmin j hjL hjpos) hjle

/-- Intersecting a ray with the identity-transform unit sphere delegates to
the local intersection of the unchanged ray. -/
theorem intersect_tws1 (r : Ray) :
    r.intersectObject (Object.sphere tws1) = tws1.localIntersect r := by
  unfold Ray.intersectObject
  rw [show (Object.sphere tws1).getTransform = Matrix.eye 4 from rfl,
    inv_eye4, transformM_eye]
  rfl

/-- Intersecting a ray with the half-scale sphere delegates to the local
intersection of the doubled ray. -/
theorem intersect_tws2 (ox oy oz dx dy dz : ℝ) :
    Ray.intersectObject ⟨⟨ox, oy, oz⟩, ⟨dx, dy, dz⟩⟩ (Object.sphere tws2) =
      tws2.localIntersect
        ⟨⟨ox * 2, oy * 2, oz * 2⟩, ⟨dx * 2, dy * 2, dz * 2⟩⟩ := by
  unfold Ray.intersectObject
  rw [show (Object.sphere tws2).getTransform =
    Matrix.scaling ⟨0.5, 0.5, 0.5⟩ from rfl, inv_scaling_half,
    transformM_scaling2]
  rfl

/-- In the two-sphere test scene, the point (10, −10, 10) is occluded by the
outer sphere. -/
theorem testWorld_shadow1 : testWorld.isShadowed ⟨10, -10, 10⟩ = true := by
  rw [shadowedIffExistsMem]
  have hsub : testWorld.light.position.subP ⟨10, -10, 10⟩ =
      ⟨-20, 20, -20⟩ := by
    norm_num [testWorld, Point.subP]
  rw [hsub]
  set s : ℝ := Real.sqrt 1200 with hsdef
  have hs2 : s ^ 2 = 1200 := Real.sq_sqrt (by norm_num)
  have hs0 : 0 < s := Real.sqrt_pos.2 (by norm_num)
  have hsne : s ≠ 0 := ne_of_gt hs0
  have hnd : (Vector.mk (-20) 20 (-20)).normalize =
      ⟨-20 / s, 20 / s, -20 / s⟩ := by
    norm_num [Vector.normalize, Vector.magnitude, hsdef]
  have hmag : (Vector.mk (-20) 20 (-20)).magnitude = s := by
    norm_num [Vector.magnitude, hsdef]
  rw [hnd, hmag]
  simp only [testWorld, List.map_cons, List.map_nil, List.flatten_cons,
    List.flatten_nil, List.append_nil]
  rw [intersect_tws1]
  have hb : (-s : ℝ) = 2 * ((Vector.mk (-20 / s) (20 / s) (-20 / s)).dot
      ((Point.mk 10 (-10) 10).subP Point.default)) := by
    norm_num [Vector.dot, Point.subP, Point.default]
    field_simp
    linear_combination (-s ^ 2) * hs2
  have ha : (1 : ℝ) = (Vector.mk (-20 / s) (20 / s) (-20 / s)).dot
      (Vector.mk (-20 / s) (20 / s) (-20 / s)) := by
    norm_num [Vector.dot]
    field_simp
    linear_combination hs2
  have hc : (299 : ℝ) = ((Point.mk 10 (-10) 10).subP Point.default).dot
      ((Point.mk 10 (-10) 10).subP Point.default) - 1 := by
    norm_num [Vector.dot, Point.subP, Point.default]
  have e1 : tws1.localIntersect
      ⟨⟨10, -10, 10⟩, ⟨-20 / s, 20 / s, -20 / s⟩⟩ =
      [⟨(s - 2) / 2, Object.sphere tws1⟩,
       ⟨(s + 2) / 2, Object.sphere tws1⟩] := by
    rw [sphereLI_eval _ _ (-s) 1 299 hb ha hc]
    have hd4 : (-s : ℝ) * -s - 4 * 1 * 299 = 4 := by linear_combination hs2
    rw [hd4]
    norm_num [sqrt_four]
  rw [e1]
  refine ⟨⟨(s - 2) / 2, Object.sphere tws1⟩,
    List.mem_append_left _ (by simp), ?_, ?_⟩
  · nlinarith [hs2, hs0]
  · nlinarith [hs2, hs0]

/-- In the two-sphere test scene, the point (−20, 20, −20) is not occluded:
both spheres lie beyond the light. -/
theorem testWorld_shadow2 :
    testWorld.isShadowed ⟨-20, 20, -20⟩ = false := by
  rw [← Bool.not_eq_true, shadowedIffExistsMem]
  have hsub : testWorld.light.position.subP ⟨-20, 20, -20⟩ =
      ⟨10, -10, 10⟩ := by
    norm_num [testWorld, Point.subP]
  rw [hsub]
  set s : ℝ := Real.sqrt 300 with hsdef
  have hs2 : s ^ 2 = 300 := Real.sq_sqrt (by norm_num)
  have hs0 : 0 < s := Real.sqrt_pos.2 (by norm_num)
  have hsne : s ≠ 0 := ne_of_gt hs0
  have hnd : (Vector.mk 10 (-10) 10).normalize =
      ⟨10 / s, -10 / s, 10 / s⟩ := by
    norm_num [Vector.normalize, Vector.magnitude, hsdef]
  have hmag : (Vector.mk 10 (-10) 10).magnitude = s := by
    norm_num [Vector.magnitude, hsdef]
  rw [hnd, hmag]
  simp only [testWorld, List.map_cons, List.map_nil, List.flatten_cons,
    List.flatten_nil, List.append_nil]
  rw [intersect_tws1, intersect_tws2]
  have hb : (-(4 * s) : ℝ) = 2 * ((Vector.mk (10 / s) (-10 / s) (10 / s)).dot
      ((Point.mk (-20) 20 (-20)).subP Point.default)) := by
    norm_num [Vector.dot, Point.subP, Point.default]
    field_simp
    linear_combination (-4 * s ^ 2) * hs2
  have ha : (1 : ℝ) = (Vector.mk (10 / s) (-10 / s) (10 / s)).dot
      (Vector.mk (10 / s) (-10 / s) (10 / s)) := by
    norm_num [Vector.dot]
    field_simp
    linear_combination hs2
  have hc : (1199 : ℝ) = ((Point.mk (-20) 20 (-20)).subP Point.default).dot
      ((Point.mk (-20) 20 (-20)).subP Point.default) - 1 := by
    norm_num [Vector.dot, Point.subP, Point.default]
  have e1 : tws1.localIntersect
      ⟨⟨-20, 20, -20⟩, ⟨10 / s, -10 / s, 10 / s⟩⟩ =
      [⟨(4 * s - 2) / 2, Object.sphere tws1⟩,
       ⟨(4 * s + 2) / 2, Object.sphere tws1⟩] := by
    rw [sphereLI_eval _ _ (-(4 * s)) 1 1199 hb ha hc]
    have hd4 : (-(4 * s) : ℝ) * -(4 * s) - 4 * 1 * 1199 = 4 := by
      linear_combination 16 * hs2
    rw [hd4]
    norm_num [sqrt_four]
  have hb2 : (-(16 * s) : ℝ) = 2 *
      ((Vector.mk (10 / s * 2) (-10 / s * 2) (10 / s * 2)).dot
        ((Point.mk (-20 * 2) (20 * 2) (-20 * 2)).subP Point.default)) := by
    norm_num [Vector.dot, Point.subP, Point.default]
    field_simp
    linear_combination (-16 * s ^ 2) * hs2
  have ha2 : (4 : ℝ) = (Vector.mk (10 / s * 2) (-10 / s * 2) (10 / s * 2)).dot
      (Vector.mk (10 / s * 2) (-10 / s * 2) (10 / s * 2)) := by
    norm_num [Vector.dot]
    field_simp
    linear_combination 4 * hs2
  have hc2 : (4799 : ℝ) =
      ((Point.mk (-20 * 2) (20 * 2) (-20 * 2)).subP Point.default).dot
        ((Point.mk (-20 * 2) (20 * 2) (-20 * 2)).subP Point.default) - 1 := by
    norm_num [Vector.dot, Point.subP, Point.default]
  have e2 : tws2.localIntersect
      ⟨⟨-20 * 2, 20 * 2, -20 * 2⟩, ⟨10 / s * 2, -10 / s * 2, 10 / s * 2⟩⟩ =
      [⟨(16 * s - 4) / 8, Object.sphere tws2⟩,
       ⟨(16 * s + 4) / 8, Object.sphere tws2⟩] := by
    rw [sphereLI_eval _ _ (-(16 * s)) 4 4799 hb2 ha2 hc2]
    have hd4 : (-(16 * s) : ℝ) * -(16 * s) - 4 * 4 * 4799 = 16 := by
      linear_combination 256 * hs2
    rw [hd4]
    norm_num [sqrt_sixteen]
  rw [e1, e2]
  rintro ⟨i, hi, hpos, hle⟩
  simp only [List.mem_append, List.mem_cons, List.not_mem_nil, or_false]
    at hi
  rcases hi with (h | h) | (h | h) <;> subst h <;>
    simp only at hpos hle <;> nlinarith [hs2, hs0]

/-- In the two-sphere test scene, the point (−2, 2, −2) is not occluded:
both spheres lie behind it relative to the light. -/
theorem testWorld_shadow3 : testWorld.isShadowed ⟨-2, 2, -2⟩ = false := by
  rw [← Bool.not_eq_true, shadowedIffExistsMem]
  have hsub : testWorld.light.position.subP ⟨-2, 2, -2⟩ =
      ⟨-8, 8, -8⟩ := by
    norm_num [testWorld, Point.subP]
  rw [hsub]
  set s : ℝ := Real.sqrt 192 with hsdef
  have hs2 : s ^ 2 = 192 := Real.sq_sqrt (by norm_num)
  have hs0 : 0 < s := Real.sqrt_pos.2 (by norm_num)
  have hsne : s ≠ 0 := ne_of_gt hs0
  have hnd : (Vector.mk (-8) 8 (-8)).normalize =
      ⟨-8 / s, 8 / s, -8 / s⟩ := by
    norm_num [Vector.normalize, Vector.magnitude, hsdef]
  have hmag : (Vector.mk (-8) 8 (-8)).magnitude = s := by
    norm_num [Vector.magnitude, hsdef]
  rw [hnd, hmag]
  simp only [testWorld, List.map_cons, List.map_nil, List.flatten_cons,
    List.flatten_nil, List.append_nil]
  rw [intersect_tws1, intersect_tws2]
  have hb : (s / 2 : ℝ) = 2 * ((Vector.mk (-8 / s) (8 / s) (-8 / s)).dot
      ((Point.mk (-2) 2 (-2)).subP Point.default)) := by
    norm_num [Vector.dot, Point.subP, Point.default]
    field_simp
    linear_combination hs2
  have ha : (1 : ℝ) = (Vector.mk (-8 / s) (8 / s) (-8 / s)).dot
      (Vector.mk (-8 / s) (8 / s) (-8 / s)) := by
    norm_num [Vector.dot]
    field_simp
    linear_combination hs2
  have hc : (11 : ℝ) = ((Point.mk (-2) 2 (-2)).subP Point.default).dot
      ((Point.mk (-2) 2 (-2)).subP Point.default) - 1 := by
    norm_num [Vector.dot, Point.subP, Point.default]
  have e1 : tws1.localIntersect
      ⟨⟨-2, 2, -2⟩, ⟨-8 / s, 8 / s, -8 / s⟩⟩ =
      [⟨(-(s / 2) - 2) / 2, Object.sphere tws1⟩,
       ⟨(-(s / 2) + 2) / 2, Object.sphere tws1⟩] := by
    rw [sphereLI_eval _ _ (s / 2) 1 11 hb ha hc]
    have hd4 : (s / 2 : ℝ) * (s / 2) - 4 * 1 * 11 = 4 := by
      linear_combination (1 / 4) * hs2
    rw [hd4]
    norm_num [sqrt_four]
  have hb2 : (2 * s : ℝ) = 2 *
      ((Vector.mk (-8 / s * 2) (8 / s * 2) (-8 / s * 2)).dot
        ((Point.mk (-2 * 2) (2 * 2) (-2 * 2)).subP Point.default)) := by
    norm_num [Vector.dot, Point.subP, Point.default]
    field_simp
    linear_combination hs2
  have ha2 : (4 : ℝ) = (Vector.mk (-8 / s * 2) (8 / s * 2) (-8 / s * 2)).dot
      (Vector.mk (-8 / s * 2) (8 / s * 2) (-8 / s * 2)) := by
    norm_num [Vector.dot]
    field_simp
    linear_combination 4 * hs2
  have hc2 : (47 : ℝ) =
      ((Point.mk (-2 * 2) (2 * 2) (-2 * 2)).subP Point.default).dot
        ((Point.mk (-2 * 2) (2 * 2) (-2 * 2)).subP Point.default) - 1 := by
    norm_num [Vector.dot, Point.subP, Point.default]
  have e2 : tws2.localIntersect
      ⟨⟨-2 * 2, 2 * 2, -2 * 2⟩, ⟨-8 / s * 2, 8 / s * 2, -8 / s * 2⟩⟩ =
      [⟨(-(2 * s) - 4) / 8, Object.sphere tws2⟩,
       ⟨(-(2 * s) + 4) / 8, Object.sphere tws2⟩] := by
    rw [sphereLI_eval _ _ (2 * s) 4 47 hb2 ha2 hc2]
    have hd4 : (2 * s : ℝ) * (2 * s) - 4 * 4 * 47 = 16 := by
      linear_combination 4 * hs2
    rw [hd4]
    norm_num [sqrt_sixteen]
  rw [e1, e2]
  rintro ⟨i, hi, hpos, hle⟩
  simp only [List.mem_append, List.mem_cons, List.not_mem_nil, or_false]
    at hi
  rcases hi with (h | h) | (h | h) <;> subst h <;>
    simp only at hpos hle <;> nlinarith [hs2, hs0]

/-- C5: World::is_shadowed(point) is true exactly when the hit of the
scene's intersections of the ray cast from the point toward the light (with
normalized direction) exists with t at most the distance to the light; in
the canonical two-sphere scene, (10, −10, 10) is shadowed while
(−20, 20, −20) and (−2, 2, −2) are not.  (The Object dispatch layer absent
from this source snapshot is modelled from the spec, section 4.4.) -/
theorem is_shadowed_spec (w : World) (p : Point) :
    (w.isShadowed p = true ↔
      ∃ i, hit (w.intersect ⟨p, (w.light.position.subP p).normalize⟩) =
          some i ∧
        i.t ≤ (w.light.position.subP p).magnitude) ∧
    testWorld.isShadowed ⟨10, -10, 10⟩ = true ∧
    testWorld.isShadowed ⟨-20, 20, -20⟩ = false ∧
    testWorld.isShadowed ⟨-2, 2, -2⟩ = false := by
  refine ⟨?_, testWorld_shadow1, testWorld_shadow2, testWorld_shadow3⟩
  simp only [World.isShadowed]
  rcases hhit : hit (w.intersect
      ⟨p, (w.light.position.subP p).normalize⟩) with _ | a
  · simp [hhit]
  · simp [hhit]

/-- C5 witness: the shadowed concrete point, from the claim theorem. -/
theorem is_shadowed_spec_witness : testWorld.isShadowed ⟨10, -10, 10⟩ = true :=
  (is_shadowed_spec testWorld ⟨10, -10, 10⟩).2.1

end RT

